import Mathlib

/-!
Verification of the RemoteRelay MCP server (src/index.ts) against its
natural-language specification.

The development shallowly embeds the pure logic of the source file:
JavaScript string primitives (trim, split, replace, startsWith, parseInt,
falsy-or defaulting) are transliterated to Lean functions on `String` /
`List Char`; each tool handler's decision logic is embedded as a pure
function from the remote responses it consumes (modelled as explicit
oracle arguments) to the state update and response it produces.  Remote
shell behaviour that the program relies on (POSIX single-quote
evaluation, here-document processing, `cat -n` numbering) is modelled
from the POSIX semantics, as the code delegates those steps to the
remote shell.
-/

/- ===================== Basic result types ===================== -/

/-- Result shape of `sshExec` (src/index.ts line 21): captured stdout,
stderr and the numeric exit code. -/
structure ExecResult where
  stdout : String
  stderr : String
  exitCode : Int
deriving DecidableEq, Repr

/-- Response returned by a tool handler: the text block plus the
error flag (`isError` is absent, i.e. false, on the success paths). -/
structure ToolResponse where
  text : String
  isError : Bool
deriving DecidableEq, Repr

/- ===================== JavaScript string helpers ===================== -/

/-- Whitespace recognised by JavaScript `String.prototype.trim`:
tab, LF, VT, FF, CR, space, NBSP, LINE/PARAGRAPH SEPARATOR, BOM. -/
def isJsWhitespace (c : Char) : Bool :=
  c.toNat == 9 || c.toNat == 10 || c.toNat == 11 || c.toNat == 12 ||
  c.toNat == 13 || c.toNat == 32 || c.toNat == 160 || c.toNat == 8232 ||
  c.toNat == 8233 || c.toNat == 65279

/-- Transliteration of JavaScript `s.trim()`: drop whitespace from both
ends. -/
def jsTrim (s : String) : String :=
  ⟨((s.data.dropWhile isJsWhitespace).reverse.dropWhile isJsWhitespace).reverse⟩

/-- JavaScript `v || d` for an optional number `v` (undefined or 0 is
falsy, so both select the default).  Used for the timeout defaulting in
`sshExec` (line 22) and `tmuxExec` (line 56). -/
def jsNumOr (v : Option Nat) (d : Nat) : Nat :=
  match v with
  | none => d
  | some n => if n = 0 then d else n

/-- JavaScript `a || b` on strings: the empty string is falsy. -/
def jsStrOr (a b : String) : String :=
  if a = "" then b else a

/-- Truthiness of the `currentWorkingDirectory : string | null` field
(src/index.ts line 18): null and the empty string are falsy. -/
def strTruthy (v : Option String) : Bool :=
  match v with
  | none => false
  | some s => !(s == "")

/-- Transliteration of `filePath.startsWith("/")`: the string's first
character is the root marker. -/
def strStartsWithSlash (p : String) : Bool :=
  match p.data with
  | [] => false
  | c :: _ => c == '/'

/- ===================== Transport Connector (sshExec) ===================== -/

/-- Timeout actually used by `sshExec` (line 22): `options.timeout || 60000`. -/
def sshExecTimeout (v : Option Nat) : Nat := jsNumOr v 60000

/-- Timeout actually used by `tmuxExec` (line 56): `options.timeout || 60000`. -/
def tmuxExecTimeout (v : Option Nat) : Nat := jsNumOr v 60000

/-- Result assembled by `sshExec` on process close (lines 44-46): the
captured streams, with a missing (`null`) exit status normalized to 0 by
`exitCode ?? 0`. -/
def sshExecResult (stdout stderr : String) (exitStatus : Option Int) : ExecResult :=
  { stdout := stdout, stderr := stderr, exitCode := exitStatus.getD 0 }

/- ===================== Path resolution ===================== -/

/-- Path resolution used identically by remote_read (lines 151-154),
remote_write (lines 197-199), remote_edit (lines 236-239) and remote_cd
(lines 371-374): a path not starting with "/" is joined under the
working directory when that state is truthy, otherwise the input is
used unchanged. -/
def resolvePath (cwd : Option String) (p : String) : String :=
  if (!strStartsWithSlash p) && strTruthy cwd then (cwd.getD ("")) ++ "/" ++ p else p

/- ===================== remote_cd ===================== -/

/-- State transition and response of remote_cd (lines 368-397), given the
result of the existence probe `cd <target> && pwd`: on nonzero exit the
working-directory state is returned unchanged with an error response; on
success the state becomes the trimmed stdout of the probe. -/
def remote_cd (cwd : Option String) (newPath : String) (probe : ExecResult) :
    Option String × ToolResponse :=
  if probe.exitCode ≠ 0 then
    (cwd, { text := "Error: Directory does not exist or is not accessible: " ++ newPath,
            isError := true })
  else
    (some (jsTrim probe.stdout),
     { text := "Working directory changed to: " ++ jsTrim probe.stdout, isError := false })

/- ===================== remote_grep ===================== -/

/-- Response assembled by remote_grep (lines 346-351) from the completed
`sshExec` result: the exit code is never inspected, and a blank stdout is
rendered as "(no matches)" via the falsy-or. -/
def remote_grep_response (pattern : String) (result : ExecResult) : ToolResponse :=
  { text := "Grep results for \x27" ++ pattern ++ "\x27:\n" ++
      jsStrOr (jsTrim result.stdout) ("(no matches)"),
    isError := false }

/- ===================== Decimal rendering of the Date.now() token ===================== -/

/-- Decimal digit character for a digit value (values ≥ 10 never arise). -/
def decDigitChar : Nat → Char
  | 0 => '0'
  | 1 => '1'
  | 2 => '2'
  | 3 => '3'
  | 4 => '4'
  | 5 => '5'
  | 6 => '6'
  | 7 => '7'
  | 8 => '8'
  | 9 => '9'
  | _ => '*'

/-- Fuelled digit expansion of a natural number, most significant digit
first; the fuel (≥ the number itself) only bounds the recursion. -/
def decReprAux : Nat → Nat → List Char
  | 0, _ => []
  | _ + 1, 0 => []
  | fuel + 1, n + 1 => decReprAux fuel ((n + 1) / 10) ++ [decDigitChar ((n + 1) % 10)]

/-- Decimal rendering of a natural number, as JavaScript template
interpolation renders the `Date.now()` value. -/
def decRepr (n : Nat) : List Char :=
  if n = 0 then ['0'] else decReprAux n n

/-- Numeric value of a digit character (inverse of `decDigitChar` on
digits). -/
def charVal (c : Char) : Nat :=
  if c.toNat < 48 then 0 else c.toNat - 48

/-- Base-10 value of a most-significant-first digit character list. -/
def charListVal (l : List Char) : Nat :=
  l.foldl (fun a c => 10 * a + charVal c) 0

/- ===================== Session Command Bridge (tmuxExec) ===================== -/

/-- Temporary output file path allocated by tmuxExec (line 57) from the
`Date.now()` token `t`. -/
def outputFileName (t : Nat) : String :=
  ⟨("/tmp/claude-relay-output-").data ++ decRepr t⟩

/-- Temporary exit-status file path allocated by tmuxExec (line 58) from
the `Date.now()` token `t`. -/
def exitCodeFileName (t : Nat) : String :=
  ⟨("/tmp/claude-relay-exit-").data ++ decRepr t⟩

/-- Cleanup command issued by tmuxExec on both the success path (line 85)
and the timeout path (line 94): it names both temporary files. -/
def cleanupCommand (t : Nat) : String :=
  "rm -f " ++ outputFileName t ++ " " ++ exitCodeFileName t

/-- Result shape of `tmuxExec`.  `exitCode = none` models the JavaScript
NaN produced by `parseInt` on non-numeric exit-file contents; every
branch of the claims below yields a numeric code. -/
structure TmuxResult where
  stdout : String
  stderr : String
  exitCode : Option Int
deriving DecidableEq, Repr

/-- Decimal digit test used by the `parseInt` model. -/
def jsDigit (c : Char) : Bool :=
  decide (47 < c.toNat) && decide (c.toNat < 58)

/-- Accumulating decimal parse of a leading digit run (trailing
non-digits are ignored, as `parseInt` does). -/
def parseDigitsAcc (acc : Nat) : List Char → Nat
  | [] => acc
  | c :: r => if jsDigit c then parseDigitsAcc (10 * acc + (c.toNat - 48)) r else acc

/-- Model of JavaScript `parseInt(s, 10)`: skip whitespace, optional
sign, then a leading digit run; `none` models NaN. -/
def jsParseInt10 (s : String) : Option Int :=
  match s.data.dropWhile isJsWhitespace with
  | [] => none
  | c :: r =>
    if c = '-' then
      match r with
      | [] => none
      | d :: _ => if jsDigit d then some (-(parseDigitsAcc 0 r : Nat)) else none
    else if c = '+' then
      match r with
      | [] => none
      | d :: _ => if jsDigit d then some ((parseDigitsAcc 0 r : Nat) : Int) else none
    else if jsDigit c then some ((parseDigitsAcc 0 (c :: r) : Nat) : Int)
    else none

/-- Poll loop of tmuxExec (lines 76-95), over the remote responses it
consumes.  `polls` holds the stdout of each `test -f <exit-file> && cat
<exit-file>` probe that fits before the deadline (the empty list models a
deadline that has already passed); `outputContent` is the stdout the
remote would return for `cat <output-file>`; `cleanupResult` is the
remote's response to the `rm -f` cleanup, which the code ignores.  The
returned list holds the commands issued after the loop decides, so every
exit path ends with the cleanup command. -/
def tmuxPollLoop (t : Nat) (outputContent : String) (cleanupResult : ExecResult) :
    List String → TmuxResult × List String
  | [] =>
    ({ stdout := "", stderr := "Command timed out", exitCode := some 124 },
     [cleanupCommand t])
  | p :: rest =>
    if jsTrim p ≠ "" then
      ({ stdout := outputContent, stderr := "", exitCode := jsParseInt10 (jsTrim p) },
       ["cat " ++ outputFileName t ++ " 2>/dev/null", cleanupCommand t])
    else tmuxPollLoop t outputContent cleanupResult rest

/- ===================== Shell quoting (escapeShell) ===================== -/

/-- Code points that are active for a POSIX shell when they appear
unquoted in a word: whitespace (word splitting), glob characters,
quoting characters, and the operators/expansion characters
(space, tab, newline, ! " # $ % & ' ( ) * ; < = > ? [ \ ] ^ backtick
brace pipe tilde). -/
def shellSpecialCodes : List Nat :=
  [9, 10, 32, 33, 34, 35, 36, 37, 38, 39, 40, 41, 42, 59, 60, 61, 62, 63,
   91, 92, 93, 94, 96, 123, 124, 125, 126]

/-- Test for a shell-active character. -/
def isShellSpecial (c : Char) : Bool := shellSpecialCodes.contains c.toNat

/-- Model of POSIX shell evaluation of one word, from the POSIX quoting
rules: outside quotes a single quote opens a quoted span, a backslash
escapes the next character (backslash-newline is a line continuation),
and any other shell-active character makes the result `none` — meaning
the word is not a single literal (word splitting, globbing, or an
expansion/substitution could occur); inside single quotes every
character up to the closing quote is literal.  `some w` means the word
evaluates to exactly the literal `w` with no shell-side effects;
an unterminated quote is `none`. -/
def shellEvalWord (inQ : Bool) : List Char → Option (List Char)
  | [] => if inQ then none else some []
  | c :: r =>
    if inQ then
      if c = '\'' then shellEvalWord false r
      else (shellEvalWord true r).map (c :: ·)
    else
      if c = '\'' then shellEvalWord true r
      else if c = '\\' then
        match r with
        | [] => none
        | d :: r2 =>
          if d = '\n' then shellEvalWord false r2
          else (shellEvalWord false r2).map (d :: ·)
      else if isShellSpecial c then none
      else (shellEvalWord false r).map (c :: ·)

/-- Body of escapeShell (line 100): transliteration of
`str.replace(/'/g, "'\\''")` — every single quote becomes the four
characters quote, backslash, quote, quote. -/
def escBody : List Char → List Char
  | [] => []
  | c :: r =>
    if c = '\'' then '\'' :: '\\' :: '\'' :: '\'' :: escBody r
    else c :: escBody r

/-- escapeShell (lines 99-101): the escaped body wrapped in single
quotes. -/
def escapeShell (s : String) : String :=
  ⟨'\'' :: (escBody s.data ++ ['\''])⟩

/- ===================== remote_edit ===================== -/

/-- Fuelled splitter on a nonempty separator `p :: ps`, transliterating
JavaScript `String.prototype.split` for string separators: scan left to
right, each match consumes the separator.  The fuel (instantiated with
the subject's length, which always suffices) only bounds the recursion. -/
def splitNEF (p : Char) (ps : List Char) : Nat → List Char → List (List Char)
  | _, [] => [[]]
  | 0, l => [l]
  | fuel + 1, c :: r =>
    if (p :: ps).isPrefixOf (c :: r) then [] :: splitNEF p ps fuel (r.drop ps.length)
    else
      match splitNEF p ps fuel r with
      | t :: ts => (c :: t) :: ts
      | [] => [[c]]

/-- JavaScript `s.split(sep)` for string separators: an empty separator
splits into single characters (the empty string yields the empty list),
otherwise the nonempty-separator scan. -/
def jsSplit (s sep : List Char) : List (List Char) :=
  match sep with
  | [] => s.map (fun c => [c])
  | p :: ps => splitNEF p ps s.length s

/-- Occurrence count computed by remote_edit (line 253):
`content.split(old_string).length - 1`, an integer. -/
def editOccurrences (content old : String) : Int :=
  ((jsSplit content.data old.data).length : Int) - 1

/-- First-occurrence search: `some (b, a)` when the subject is
b ++ pat ++ a with b the part before the leftmost match, `none` when pat
does not occur (an empty pat matches at position 0). -/
def firstMatchSplit (pat : List Char) : List Char → Option (List Char × List Char)
  | [] => if pat = [] then some ([], []) else none
  | c :: r =>
    if pat.isPrefixOf (c :: r) then some ([], (c :: r).drop pat.length)
    else
      match firstMatchSplit pat r with
      | some (b, a) => some (c :: b, a)
      | none => none

/-- GetSubstitution processing that JavaScript `String.prototype.replace`
applies to the replacement string (a string pattern has no capture
groups): `$$` is a literal dollar, `$&` the matched string,
dollar-backtick the portion before the match, `$` followed by a single
quote the portion after it; any other dollar is literal. -/
def jsSubstitute (matched before after : List Char) : List Char → List Char
  | [] => []
  | c :: r =>
    if c = '$' then
      match r with
      | [] => ['$']
      | d :: r2 =>
        if d = '$' then '$' :: jsSubstitute matched before after r2
        else if d = '&' then matched ++ jsSubstitute matched before after r2
        else if d.toNat = 96 then before ++ jsSubstitute matched before after r2
        else if d = '\'' then after ++ jsSubstitute matched before after r2
        else c :: d :: jsSubstitute matched before after r2
    else c :: jsSubstitute matched before after r

/-- JavaScript `s.replace(pat, repl)` for string patterns: replace the
first occurrence of pat, applying the replacement-pattern processing to
repl; when pat does not occur, s is returned unchanged. -/
def jsReplace (s pat repl : List Char) : List Char :=
  match firstMatchSplit pat s with
  | none => s
  | some (b, a) => b ++ jsSubstitute pat b a repl ++ a

/-- Error response of remote_edit when old_string does not occur
(lines 254-259). -/
def editNotFoundResp : ToolResponse :=
  { text := "Error: old_string not found in file", isError := true }

/-- Decimal rendering of an integer, as JavaScript template
interpolation renders the occurrence count. -/
def intRepr (i : Int) : String :=
  match i with
  | .ofNat n => ⟨decRepr n⟩
  | .negSucc n => "-" ++ ⟨decRepr (n + 1)⟩

/-- Error response of remote_edit when old_string occurs more than once
(lines 260-265). -/
def editAmbiguousResp (occ : Int) : ToolResponse :=
  { text := "Error: old_string found " ++ intRepr occ ++
      " times. Please provide more context to make it unique.",
    isError := true }

/-- Success response of remote_edit (lines 279-281). -/
def editOkResp (fullPath : String) : ToolResponse :=
  { text := "Successfully edited " ++ fullPath, isError := false }

/-- Decision logic of remote_edit (lines 250-281) on the fetched file
content: count occurrences by split, reject counts 0 and >1 without
issuing any write (first component `none`), otherwise submit the
replaced content for the write-back (first component `some`). -/
def remote_edit_compute (content old new fullPath : String) :
    Option String × ToolResponse :=
  let occ := editOccurrences content old
  if occ = 0 then (none, editNotFoundResp)
  else if 1 < occ then (none, editAmbiguousResp occ)
  else (some ⟨jsReplace content.data old.data new.data⟩, editOkResp fullPath)

/- ===================== remote_write / remote_read (heredoc and cat -n) ===================== -/

/-- Split a character sequence at every newline (the empty sequence is
one empty line). -/
def splitNl : List Char → List (List Char)
  | [] => [[]]
  | c :: r =>
    if c = '\n' then [] :: splitNl r
    else (c :: (splitNl r).headI) :: (splitNl r).tail

/-- Join lines with newline separators (inverse of `splitNl`). -/
def joinNl : List (List Char) → List Char
  | [] => []
  | [l] => l
  | l :: ls => l ++ '\n' :: joinNl ls

/-- Serialize complete lines: every line, including the last, is
terminated by a newline. -/
def terminateLines (ls : List (List Char)) : List Char :=
  ls.foldr (fun l acc => l ++ '\n' :: acc) []

/-- Here-document delimiter used by remote_write (line 203) and
remote_edit's write-back (line 269). -/
def heredocDelim : String := "REMOTERELAY_EOF"

/-- Lines the remote shell feeds into the here-document body: the lines
of the content up to (excluding) the first line equal to the delimiter
(the command itself supplies a final delimiter line, so without a
collision all content lines are taken; any content lines after an
embedded delimiter line would instead be executed as shell commands,
outside this model). -/
def heredocBodyLines (content : List Char) : List (List Char) :=
  (splitNl content).takeWhile (fun l => l != heredocDelim.data)

/-- Bytes stored in the remote file by the here-document write
`cat > path << 'REMOTERELAY_EOF'` (line 203): each body line followed
by a newline. -/
def heredocFileBytes (content : List Char) : List Char :=
  terminateLines (heredocBodyLines content)

/-- Lines of a file in the POSIX sense: a trailing newline terminates
the last line, a non-newline tail is one incomplete final line. -/
def fileLines (file : List Char) : List (List Char) :=
  if file = [] then []
  else if file.getLast? = some '\n' then (splitNl file).dropLast
  else splitNl file

/-- Line-number prefix printed by `cat -n` for line number n: the
decimal number right-aligned in width 6, followed by a tab. -/
def lineTag (n : Nat) : List Char :=
  List.replicate (6 - (decRepr n).length) ' ' ++ decRepr n ++ ['\t']

/-- Number the given lines starting at k. -/
def numberLines (k : Nat) : List (List Char) → List (List Char)
  | [] => []
  | l :: ls => (lineTag k ++ l) :: numberLines (k + 1) ls

/-- Model of the stdout of `cat -n file` (remote_read, line 156): each
line is prefixed with its line number; a complete (newline-terminated)
input yields complete output lines. -/
def catN (file : List Char) : List Char :=
  if file.getLast? = some '\n' then terminateLines (numberLines 1 (fileLines file))
  else joinNl (numberLines 1 (fileLines file))

/-- Remove a `cat -n` line-number prefix: drop everything up to and
including the first tab. -/
def stripTag : List Char → List Char
  | [] => []
  | c :: r => if c = '\t' then r else stripTag r

/-- Content of the remote file after remote_write (lines 202-204) runs
its here-document command for the given content. -/
def remote_write_storedFile (content : String) : String :=
  ⟨heredocFileBytes content.data⟩

/-- Stdout returned to remote_read's plain (no offset/limit) path for a
file with the given bytes: `cat -n` output. -/
def remote_read_stdout (file : String) : String :=
  ⟨catN file.data⟩

/-- Strip the added line-number prefixes from a remote_read result and
re-join the lines ("modulo line-number prefixes" in the claim). -/
def readModuloNumbers (s : String) : String :=
  ⟨joinNl ((fileLines s.data).map stripTag)⟩

/- ===================== Theorems ===================== -/

/-- Digit characters decode back to their value. -/
theorem charVal_decDigitChar (d : Nat) (hd : d < 10) : charVal (decDigitChar d) = d := by
  interval_cases d <;> rfl

/-- Appending one digit multiplies the decoded value by 10 and adds the
digit. -/
theorem charListVal_append_digit (l : List Char) (c : Char) :
    charListVal (l ++ [c]) = 10 * charListVal l + charVal c := by
  simp [charListVal, List.foldl_append]

/-- The fuelled digit expansion decodes to the encoded number. -/
theorem charListVal_decReprAux : ∀ fuel n, n ≤ fuel → charListVal (decReprAux fuel n) = n := by
  intro fuel
  induction fuel with
  | zero =>
    intro n h
    have hn : n = 0 := by omega
    subst hn
    rfl
  | succ f ih =>
    intro n h
    cases n with
    | zero => rfl
    | succ m =>
      have hq : (m + 1) / 10 ≤ f := by
        have := Nat.div_lt_self (Nat.succ_pos m) (by norm_num : 1 < 10)
        omega
      have hm : (m + 1) % 10 < 10 := Nat.mod_lt _ (by norm_num)
      calc charListVal (decReprAux (f + 1) (m + 1))
          = charListVal (decReprAux f ((m + 1) / 10) ++ [decDigitChar ((m + 1) % 10)]) := rfl
        _ = 10 * charListVal (decReprAux f ((m + 1) / 10)) + charVal (decDigitChar ((m + 1) % 10)) :=
            charListVal_append_digit _ _
        _ = 10 * ((m + 1) / 10) + (m + 1) % 10 := by rw [ih _ hq, charVal_decDigitChar _ hm]
        _ = m + 1 := Nat.div_add_mod (m + 1) 10

/-- The decimal rendering decodes to the rendered number. -/
theorem charListVal_decRepr (n : Nat) : charListVal (decRepr n) = n := by
  by_cases h : n = 0
  · subst h
    rfl
  · rw [decRepr, if_neg h]
    exact charListVal_decReprAux n n le_rfl

/-- Distinct numbers have distinct decimal renderings. -/
theorem decRepr_injective {m n : Nat} (h : decRepr m = decRepr n) : m = n := by
  have := congrArg charListVal h
  rwa [charListVal_decRepr, charListVal_decRepr] at this

/-- Claim C4: whenever every poll the deadline permits sees an
exit-status file that is still missing or empty (blank stdout), tmuxExec
issues the best-effort cleanup of both temporary files — the cleanup
response is universally quantified and never inspected, so its failure
cannot fail the call — and returns exit code 124 with the timeout
message, regardless of the command's eventual real exit code. -/
theorem tmuxExec_timeout_cleanup (t : Nat) (outputContent : String)
    (cleanupResult : ExecResult) (polls : List String)
    (h : ∀ p ∈ polls, jsTrim p = "") :
    tmuxPollLoop t outputContent cleanupResult polls =
      ({ stdout := "", stderr := "Command timed out", exitCode := some 124 },
       [cleanupCommand t]) := by
  induction polls with
  | nil => rfl
  | cons p rest ih =>
    have hp : jsTrim p = "" := h p (List.mem_cons_self p rest)
    have hrest : ∀ q ∈ rest, jsTrim q = "" := fun q hq => h q (List.mem_cons_of_mem p hq)
    simp [tmuxPollLoop, hp]
    exact ih hrest

/-- Witness for C4: two blank polls (file absent, then still absent)
followed by the deadline produce the 124 timeout result and the cleanup
of both files, even though the cleanup response itself reports failure. -/
theorem tmuxExec_timeout_cleanup_witness :
    tmuxPollLoop 3 ("late output") { stdout := "", stderr := "rm failed", exitCode := 1 }
        (["", "  "]) =
      ({ stdout := "", stderr := "Command timed out", exitCode := some 124 },
       [cleanupCommand 3]) :=
  tmuxExec_timeout_cleanup 3 ("late output") { stdout := "", stderr := "rm failed", exitCode := 1 }
    (["", "  "]) (by decide)

/-- Claim C6, counterexample: two distinct tmuxExec calls whose
`Date.now()` reads fall in the same millisecond (here both observe
1234) are allocated identical output file paths and identical
exit-status file paths — the token is not guaranteed different across
calls. -/
theorem tmux_tempfiles_collision_cex :
    ∃ now : Nat → Nat,
      outputFileName (now 0) = outputFileName (now 1)
      ∧ exitCodeFileName (now 0) = exitCodeFileName (now 1) :=
  ⟨fun _ => 1234, rfl, rfl⟩

/-- Claim C6 (amended): the allocated temporary file paths are distinct
between two calls whenever the calls observe distinct `Date.now()`
millisecond values; within the same millisecond the paths coincide. -/
theorem tmux_tempfiles_distinct (t1 t2 : Nat) (h : t1 ≠ t2) :
    outputFileName t1 ≠ outputFileName t2 ∧ exitCodeFileName t1 ≠ exitCodeFileName t2 := by
  constructor
  · intro he
    exact h (decRepr_injective (List.append_cancel_left (String.ext_iff.mp he)))
  · intro he
    exact h (decRepr_injective (List.append_cancel_left (String.ext_iff.mp he)))

/-- Witness for C6 (amended): calls observing milliseconds 0 and 1 get
distinct paths. -/
theorem tmux_tempfiles_distinct_witness :
    outputFileName 0 ≠ outputFileName 1 ∧ exitCodeFileName 0 ≠ exitCodeFileName 1 :=
  tmux_tempfiles_distinct 0 1 (by decide)

/-- Claim C2 (amended): for a path P not beginning with "/", when the
working-directory state holds a nonempty D the resolved path is
D ++ "/" ++ P, and when the state is unset the path is unchanged; a path
beginning with "/" is used unchanged regardless of the state.  (When the
state holds the empty string, the code's truthiness test treats it as
unset and leaves P unchanged.) -/
theorem resolvePath_spec (D P : String) :
    (D ≠ "" → strStartsWithSlash P = false → resolvePath (some D) P = D ++ "/" ++ P)
    ∧ (strStartsWithSlash P = false → resolvePath none P = P)
    ∧ (strStartsWithSlash P = true → ∀ cwd, resolvePath cwd P = P) := by
  refine ⟨?_, ?_, ?_⟩
  · intro hD hP
    simp [resolvePath, strTruthy, hP, hD]
  · intro hP
    simp [resolvePath, strTruthy, hP]
  · intro hP cwd
    simp [resolvePath, hP]

/-- Witness for C2: concrete instances of all three cases. -/
theorem resolvePath_spec_witness :
    resolvePath (some ("/home/user")) ("a.txt") = "/home/user/a.txt"
    ∧ resolvePath none ("a.txt") = "a.txt"
    ∧ resolvePath (some ("/home/user")) ("/etc/hosts") = "/etc/hosts" :=
  ⟨(resolvePath_spec ("/home/user") ("a.txt")).1 (by decide) (by decide),
   (resolvePath_spec ("x") ("a.txt")).2.1 (by decide),
   (resolvePath_spec ("x") ("/etc/hosts")).2.2 (by decide) (some ("/home/user"))⟩

/-- Claim C2, counterexample to the literal statement: when the working
directory state holds the empty string, the code treats it as unset
(JavaScript truthiness) and returns P unchanged instead of the claimed
"" ++ "/" ++ P. -/
theorem resolvePath_empty_cwd_cex :
    resolvePath (some ("")) ("a.txt") ≠ ("" ++ "/" ++ "a.txt") := by decide

/-- Claim C3: remote_cd leaves the working-directory state unchanged when
the existence probe exits nonzero, and replaces it with the probe's
trimmed stdout when the probe succeeds. -/
theorem remote_cd_state (cwd : Option String) (newPath : String) (probe : ExecResult) :
    (probe.exitCode ≠ 0 → (remote_cd cwd newPath probe).1 = cwd)
    ∧ (probe.exitCode = 0 → (remote_cd cwd newPath probe).1 = some (jsTrim probe.stdout)) := by
  constructor
  · intro h
    simp [remote_cd, h]
  · intro h
    simp [remote_cd, h]

/-- Witness for C3: a failing probe preserves the state, a successful
probe installs the trimmed pwd output. -/
theorem remote_cd_state_witness :
    (remote_cd (some ("/old")) ("missing") { stdout := "", stderr := "no such dir", exitCode := 1 }).1
      = some ("/old")
    ∧ (remote_cd (some ("/old")) ("/var/log") { stdout := " /var/log\n", stderr := "", exitCode := 0 }).1
      = some ("/var/log") :=
  ⟨(remote_cd_state (some ("/old")) ("missing") _).1 (by decide),
   by
     have h := (remote_cd_state (some ("/old")) ("/var/log")
       { stdout := " /var/log\n", stderr := "", exitCode := 0 }).2 (by decide)
     rw [h]
     decide⟩

/-- Claim C8: a missing (null) process exit status is normalized to exit
code 0 by sshExec, and a missing timeout option defaults to 60000 ms. -/
theorem sshExec_defaults (stdout stderr : String) :
    (sshExecResult stdout stderr none).exitCode = 0 ∧ sshExecTimeout none = 60000 :=
  ⟨rfl, rfl⟩

/-- Claim C9: remote_grep never flags an error for a completed remote
command — the response ignores the exit code — and a blank stdout
produces exactly the "(no matches)" success response regardless of the
exit code. -/
theorem remote_grep_never_error (pattern : String) (result : ExecResult) :
    (remote_grep_response pattern result).isError = false
    ∧ (jsTrim result.stdout = "" →
        remote_grep_response pattern result =
          { text := "Grep results for \x27" ++ pattern ++ "\x27:\n" ++ "(no matches)",
            isError := false }) := by
  constructor
  · rfl
  · intro h
    simp [remote_grep_response, jsStrOr, h]

/-- Witness for C9: a failing grep (exit code 2, empty stdout) yields the
same success-flagged "(no matches)" response as a genuine empty search. -/
theorem remote_grep_never_error_witness :
    (remote_grep_response ("TODO") { stdout := "", stderr := "grep: err", exitCode := 2 }).isError
      = false
    ∧ remote_grep_response ("TODO") { stdout := "", stderr := "grep: err", exitCode := 2 } =
        { text := "Grep results for \x27TODO\x27:\n(no matches)", isError := false } :=
  ⟨(remote_grep_never_error ("TODO") _).1,
   by
     have h := (remote_grep_never_error ("TODO")
       { stdout := "", stderr := "grep: err", exitCode := 2 }).2 (by decide)
     rw [h]
     decide⟩

/-- Claim C10: a caller-supplied timeout of 0 is falsy under the `||`
defaulting, so both sshExec and tmuxExec use the same 60000 ms deadline
as when no timeout is supplied. -/
theorem timeout_zero_defaults :
    sshExecTimeout (some 0) = 60000 ∧ tmuxExecTimeout (some 0) = 60000
    ∧ sshExecTimeout (some 0) = sshExecTimeout none
    ∧ tmuxExecTimeout (some 0) = tmuxExecTimeout none :=
  ⟨rfl, rfl, rfl, rfl⟩

/-- Inside a quoted span, the escaped body followed by the closing quote
evaluates back to the original characters. -/
theorem shellEvalWord_escBody (l : List Char) :
    shellEvalWord true (escBody l ++ ['\'']) = some l := by
  induction l with
  | nil => rfl
  | cons c r ih =>
    by_cases hc : c = '\''
    · subst hc
      simp only [escBody, if_pos rfl, List.cons_append]
      rw [shellEvalWord.eq_def]
      norm_num
      rw [shellEvalWord.eq_def]
      norm_num
      rw [if_neg (by decide : ¬('\\' = '\'')), if_neg (by decide : ¬('\'' = '\n'))]
      rw [shellEvalWord.eq_def]
      norm_num
      rw [ih]
    · simp only [escBody, if_neg hc, List.cons_append]
      rw [shellEvalWord.eq_def]
      norm_num
      rw [if_neg hc, ih]
      rfl

/-- Claim C7: for every string — in particular strings containing single
quotes, backticks, dollar signs, or semicolons — the quoted form
produced by escapeShell evaluates, under the POSIX quoting rules, to
exactly the literal original string, with no word splitting, globbing,
or command substitution (the evaluation model returns `none` whenever
any shell-active character is left unquoted). -/
theorem escapeShell_literal (s : String) :
    shellEvalWord false (escapeShell s).data = some s.data := by
  show shellEvalWord false ('\'' :: (escBody s.data ++ ['\''])) = some s.data
  rw [shellEvalWord.eq_def]
  norm_num
  exact shellEvalWord_escBody s.data

/-- When the separator does not occur, the split scan returns the whole
subject as a single segment. -/
theorem splitNEF_of_none (p : Char) (ps : List Char) :
    ∀ fuel l, l.length ≤ fuel → firstMatchSplit (p :: ps) l = none →
      splitNEF p ps fuel l = [l] := by
  intro fuel
  induction fuel with
  | zero =>
    intro l hl _
    have hnil : l = [] := List.length_eq_zero.mp (by omega)
    subst hnil
    rfl
  | succ f ih =>
    intro l hl hm
    cases l with
    | nil => rfl
    | cons c r =>
      by_cases hpre : (p :: ps).isPrefixOf (c :: r)
      · rw [firstMatchSplit.eq_def] at hm
        simp [hpre] at hm
      · have hr : firstMatchSplit (p :: ps) r = none := by
          rw [firstMatchSplit.eq_def] at hm
          simp only [if_neg hpre] at hm
          cases hfm : firstMatchSplit (p :: ps) r with
          | none => rfl
          | some ba =>
            rw [hfm] at hm
            cases ba
            simp at hm
        rw [splitNEF.eq_def]
        simp only [if_neg hpre]
        rw [ih r (by simp at hl; omega) hr]

/-- A successful first-occurrence search decomposes the subject around
the pattern. -/
theorem firstMatchSplit_eq_some (pat : List Char) :
    ∀ l b a, firstMatchSplit pat l = some (b, a) → l = b ++ pat ++ a := by
  intro l
  induction l with
  | nil =>
    intro b a h
    by_cases hp : pat = []
    · subst hp
      simp [firstMatchSplit] at h
      obtain ⟨hb, ha⟩ := h
      subst hb
      subst ha
      rfl
    · simp [firstMatchSplit, hp] at h
  | cons c r ih =>
    intro b a h
    by_cases hpre : pat.isPrefixOf (c :: r)
    · rw [firstMatchSplit.eq_def] at h
      simp only [if_pos hpre, Option.some.injEq, Prod.mk.injEq] at h
      obtain ⟨hb, ha⟩ := h
      obtain ⟨t, ht⟩ := List.isPrefixOf_iff_prefix.mp hpre
      subst hb
      rw [← ht] at ha ⊢
      rw [List.drop_left] at ha
      rw [ha]
      rfl
    · rw [firstMatchSplit.eq_def] at h
      simp only [if_neg hpre] at h
      cases hfm : firstMatchSplit pat r with
      | none =>
        rw [hfm] at h
        simp at h
      | some ba =>
        obtain ⟨b', a'⟩ := ba
        rw [hfm] at h
        simp only [Option.some.injEq, Prod.mk.injEq] at h
        obtain ⟨hb, ha⟩ := h
        subst hb
        subst ha
        rw [ih b' a' hfm]
        rfl

/-- A replacement string containing no dollar sign passes through the
replacement-pattern processing unchanged. -/
theorem jsSubstitute_no_dollar (matched before after : List Char) :
    ∀ repl, '$' ∉ repl → jsSubstitute matched before after repl = repl := by
  intro repl
  induction repl with
  | nil => intro _; rfl
  | cons c r ih =>
    intro h
    rw [List.mem_cons] at h
    push_neg at h
    obtain ⟨hc, hr⟩ := h
    rw [jsSubstitute.eq_def]
    simp [Ne.symm hc, ih hr]

/-- Claim C1 (amended): with occurrences counted as the code counts them
(non-overlapping, by split) and a new_string containing no dollar sign
(JavaScript replace would otherwise process `$`-replacement patterns in
it): exactly one occurrence submits the content with that occurrence
replaced by new_string and every other byte identical for the
write-back; zero occurrences yields the "not found" error and more than
one the "ambiguous" error, and in both failure cases no write is
submitted. -/
theorem remote_edit_spec (content old new fullPath : String)
    (hnd : '$' ∉ new.data) :
    (editOccurrences content old = 0 →
      remote_edit_compute content old new fullPath = (none, editNotFoundResp))
    ∧ (editOccurrences content old = 1 →
        ∃ A B, content.data = A ++ old.data ++ B ∧
          remote_edit_compute content old new fullPath =
            (some ⟨A ++ new.data ++ B⟩, editOkResp fullPath))
    ∧ (1 < editOccurrences content old →
        remote_edit_compute content old new fullPath =
          (none, editAmbiguousResp (editOccurrences content old))) := by
  refine ⟨?_, ?_, ?_⟩
  · intro h
    simp [remote_edit_compute, h]
  · intro h
    have hresult : remote_edit_compute content old new fullPath =
        (some ⟨jsReplace content.data old.data new.data⟩, editOkResp fullPath) := by
      simp only [remote_edit_compute, h]
      norm_num
    cases hold : old.data with
    | nil =>
      have hfm : firstMatchSplit [] content.data = some ([], content.data) := by
        cases content.data <;> rfl
      refine ⟨[], content.data, by simp, ?_⟩
      rw [hresult]
      simp only [jsReplace, hold, hfm, List.nil_append,
        jsSubstitute_no_dollar _ _ _ _ hnd]
    | cons p ps =>
      have hlen : (jsSplit content.data old.data).length = 2 := by
        unfold editOccurrences at h
        omega
      cases hfm : firstMatchSplit (p :: ps) content.data with
      | none =>
        exfalso
        have := splitNEF_of_none p ps content.data.length content.data le_rfl hfm
        rw [hold] at hlen
        simp only [jsSplit] at hlen
        rw [this] at hlen
        simp at hlen
      | some ba =>
        obtain ⟨b, a⟩ := ba
        have hdec := firstMatchSplit_eq_some (p :: ps) content.data b a hfm
        refine ⟨b, a, hdec, ?_⟩
        rw [hresult]
        simp only [jsReplace, hold, hfm,
          jsSubstitute_no_dollar _ _ _ _ hnd]
  · intro h
    have h0 : editOccurrences content old ≠ 0 := by omega
    simp [remote_edit_compute, h0, h]

/-- Witness for C1 (amended): editing "ab" replacing the unique "a" by
"Z" submits "Zb" for the write-back. -/
theorem remote_edit_spec_witness :
    ∃ A B, ("ab").data = A ++ ("a").data ++ B ∧
      remote_edit_compute ("ab") ("a") ("Z") ("f.txt") =
        (some ⟨A ++ ("Z").data ++ B⟩, editOkResp ("f.txt")) :=
  (remote_edit_spec ("ab") ("a") ("Z") ("f.txt") (by decide)).2.1 (by decide)

/-- Claim C1, counterexample to the literal statement: content "x" holds
exactly one occurrence of old_string "x", but with new_string "$$" the
code submits "$" (JavaScript replace processes `$$` as a literal
dollar), not the claimed replacement by the new_string "$$". -/
theorem remote_edit_dollar_cex :
    (remote_edit_compute ("x") ("x") ("$$") ("f.txt")).1 = some ("$")
    ∧ (remote_edit_compute ("x") ("x") ("$$") ("f.txt")).1 ≠ some ("$$") := by
  constructor <;> decide

/-- Unfolding: splitting at a leading newline. -/
theorem splitNl_cons_nl (r : List Char) : splitNl ('\n' :: r) = [] :: splitNl r := by
  simp [splitNl]

/-- Unfolding: splitting at a leading non-newline character. -/
theorem splitNl_cons_ne (c : Char) (r : List Char) (hc : c ≠ '\n') :
    splitNl (c :: r) = (c :: (splitNl r).headI) :: (splitNl r).tail := by
  simp [splitNl, hc]

/-- Splitting never yields an empty list of lines. -/
theorem splitNl_ne_nil (l : List Char) : splitNl l ≠ [] := by
  cases l with
  | nil => simp [splitNl]
  | cons c r =>
    by_cases hc : c = '\n' <;> simp [splitNl, hc]

/-- Joining the split lines reproduces the original sequence. -/
theorem joinNl_splitNl (l : List Char) : joinNl (splitNl l) = l := by
  induction l with
  | nil => rfl
  | cons c r ih =>
    by_cases hc : c = '\n'
    · subst hc
      rw [splitNl_cons_nl]
      cases hsp : splitNl r with
      | nil => exact absurd hsp (splitNl_ne_nil r)
      | cons t ts =>
        rw [hsp] at ih
        rw [joinNl]
        · simp [ih]
        · simp
    · rw [splitNl_cons_ne c r hc]
      cases hsp : splitNl r with
      | nil => exact absurd hsp (splitNl_ne_nil r)
      | cons t ts =>
        rw [hsp] at ih
        simp only [List.headI, List.tail_cons]
        cases ts with
        | nil =>
          simp only [joinNl] at ih ⊢
          rw [ih]
        | cons t2 ts2 =>
          simp only [joinNl] at ih ⊢
          rw [← ih]
          rfl

/-- Appending a final newline appends one empty line to the split. -/
theorem splitNl_append_nl (l : List Char) : splitNl (l ++ ['\n']) = splitNl l ++ [[]] := by
  induction l with
  | nil => rfl
  | cons c r ih =>
    by_cases hc : c = '\n'
    · subst hc
      rw [List.cons_append, splitNl_cons_nl, splitNl_cons_nl, ih]
      rfl
    · rw [List.cons_append, splitNl_cons_ne c _ hc, splitNl_cons_ne c r hc, ih]
      cases hsp : splitNl r with
      | nil => exact absurd hsp (splitNl_ne_nil r)
      | cons t ts => simp

/-- A sequence without newlines splits into itself as a single line. -/
theorem splitNl_of_no_nl (l : List Char) (h : '\n' ∉ l) : splitNl l = [l] := by
  induction l with
  | nil => rfl
  | cons c r ih =>
    rw [List.mem_cons] at h
    push_neg at h
    obtain ⟨hc, hr⟩ := h
    rw [splitNl_cons_ne c r (Ne.symm hc), ih hr]
    simp

/-- Splitting distributes over a newline that follows a newline-free
front. -/
theorem splitNl_front (a b : List Char) (h : '\n' ∉ a) :
    splitNl (a ++ '\n' :: b) = a :: splitNl b := by
  induction a with
  | nil => rw [List.nil_append, splitNl_cons_nl]
  | cons c a2 ih =>
    rw [List.mem_cons] at h
    push_neg at h
    obtain ⟨hc, ha⟩ := h
    rw [List.cons_append, splitNl_cons_ne c _ (Ne.symm hc), ih ha]
    simp

/-- Splitting a join of newline-free lines recovers the lines. -/
theorem splitNl_joinNl (ls : List (List Char)) (hne : ls ≠ [])
    (h : ∀ l ∈ ls, '\n' ∉ l) : splitNl (joinNl ls) = ls := by
  induction ls with
  | nil => exact absurd rfl hne
  | cons l ls2 ih =>
    cases ls2 with
    | nil =>
      simp only [joinNl]
      exact splitNl_of_no_nl l (h l (List.mem_cons_self l []))
    | cons l2 ls3 =>
      simp only [joinNl]
      rw [splitNl_front l _ (h l (List.mem_cons_self l _))]
      rw [ih (by simp) (fun x hx => h x (List.mem_cons_of_mem l hx))]

/-- Every line produced by splitting is newline-free. -/
theorem mem_splitNl_no_nl : ∀ (s : List Char) (l : List Char), l ∈ splitNl s → '\n' ∉ l := by
  intro s
  induction s with
  | nil =>
    intro l hl
    simp [splitNl] at hl
    subst hl
    simp
  | cons c r ih =>
    intro l hl
    by_cases hc : c = '\n'
    · subst hc
      rw [splitNl_cons_nl] at hl
      rw [List.mem_cons] at hl
      cases hl with
      | inl h0 =>
        subst h0
        simp
      | inr h0 => exact ih l h0
    · rw [splitNl_cons_ne c r hc] at hl
      cases hsp : splitNl r with
      | nil => exact absurd hsp (splitNl_ne_nil r)
      | cons t ts =>
        rw [hsp] at hl
        simp only [List.headI, List.tail_cons] at hl
        rw [List.mem_cons] at hl
        cases hl with
        | inl h0 =>
          subst h0
          intro hmem
          rw [List.mem_cons] at hmem
          cases hmem with
          | inl h1 => exact hc h1.symm
          | inr h1 => exact ih t (hsp ▸ List.mem_cons_self t ts) h1
        | inr h0 => exact ih l (hsp ▸ List.mem_cons_of_mem t h0)

/-- Terminating nonempty lines equals the join plus a final newline. -/
theorem terminateLines_eq (ls : List (List Char)) (h : ls ≠ []) :
    terminateLines ls = joinNl ls ++ ['\n'] := by
  induction ls with
  | nil => exact absurd rfl h
  | cons l ls2 ih =>
    cases ls2 with
    | nil => rfl
    | cons l2 ls3 =>
      simp only [terminateLines, List.foldr_cons] at ih ⊢
      rw [ih (by simp)]
      simp only [joinNl]
      simp

/-- takeWhile with an everywhere-true test keeps the whole list. -/
theorem takeWhile_of_all {α : Type} (q : α → Bool) :
    ∀ ls : List α, (∀ x ∈ ls, q x = true) → ls.takeWhile q = ls := by
  intro ls
  induction ls with
  | nil => intro _; rfl
  | cons x ls2 ih =>
    intro h
    rw [List.takeWhile_cons_of_pos (h x (List.mem_cons_self x ls2))]
    rw [ih (fun y hy => h y (List.mem_cons_of_mem x hy))]

/-- Digit characters are never tab or newline. -/
theorem decDigitChar_ne_tab_nl (d : Nat) : decDigitChar d ≠ '\t' ∧ decDigitChar d ≠ '\n' := by
  unfold decDigitChar
  split <;> exact ⟨by decide, by decide⟩

/-- Characters of the fuelled digit expansion are never tab or newline. -/
theorem decReprAux_ne_tab_nl : ∀ fuel n c, c ∈ decReprAux fuel n → c ≠ '\t' ∧ c ≠ '\n' := by
  intro fuel
  induction fuel with
  | zero =>
    intro n c hc
    simp [decReprAux] at hc
  | succ f ih =>
    intro n c hc
    cases n with
    | zero => simp [decReprAux] at hc
    | succ m =>
      rw [decReprAux] at hc
      rw [List.mem_append] at hc
      cases hc with
      | inl h0 => exact ih _ c h0
      | inr h0 =>
        rw [List.mem_singleton] at h0
        subst h0
        exact decDigitChar_ne_tab_nl _

/-- Characters of the decimal rendering are never tab or newline. -/
theorem decRepr_ne_tab_nl (n : Nat) (c : Char) (hc : c ∈ decRepr n) :
    c ≠ '\t' ∧ c ≠ '\n' := by
  unfold decRepr at hc
  by_cases h : n = 0
  · rw [if_pos h] at hc
    rw [List.mem_singleton] at hc
    subst hc
    exact ⟨by decide, by decide⟩
  · rw [if_neg h] at hc
    exact decReprAux_ne_tab_nl n n c hc

/-- Stripping drops everything through the first tab. -/
theorem stripTag_append (pre l : List Char) (h : '\t' ∉ pre) :
    stripTag (pre ++ '\t' :: l) = l := by
  induction pre with
  | nil => simp [stripTag]
  | cons c p ih =>
    rw [List.mem_cons] at h
    push_neg at h
    obtain ⟨hc, hp⟩ := h
    rw [List.cons_append, stripTag, if_neg (Ne.symm hc)]
    exact ih hp

/-- Stripping a line-number tag recovers the tagged line. -/
theorem stripTag_lineTag (n : Nat) (l : List Char) : stripTag (lineTag n ++ l) = l := by
  have hpre : '\t' ∉ (List.replicate (6 - (decRepr n).length) ' ' ++ decRepr n) := by
    intro hmem
    rw [List.mem_append] at hmem
    cases hmem with
    | inl h0 =>
      rw [List.mem_replicate] at h0
      exact absurd h0.2 (by decide)
    | inr h0 => exact (decRepr_ne_tab_nl n '\t' h0).1 rfl
  have hassoc : lineTag n ++ l =
      (List.replicate (6 - (decRepr n).length) ' ' ++ decRepr n) ++ '\t' :: l := by
    simp [lineTag, List.append_assoc]
  rw [hassoc, stripTag_append _ _ hpre]

/-- Line-number tags contain no newline. -/
theorem lineTag_no_nl (n : Nat) : '\n' ∉ lineTag n := by
  intro hmem
  simp only [lineTag] at hmem
  rw [List.mem_append] at hmem
  cases hmem with
  | inl h0 =>
    rw [List.mem_append] at h0
    cases h0 with
    | inl h1 =>
      rw [List.mem_replicate] at h1
      exact absurd h1.2 (by decide)
    | inr h1 => exact (decRepr_ne_tab_nl n '\n' h1).2 rfl
  | inr h0 =>
    rw [List.mem_singleton] at h0
    exact absurd h0 (by decide)

/-- Numbered lines strip back to the original lines. -/
theorem map_stripTag_numberLines : ∀ (ls : List (List Char)) (k : Nat),
    (numberLines k ls).map stripTag = ls := by
  intro ls
  induction ls with
  | nil => intro k; rfl
  | cons l ls2 ih =>
    intro k
    simp only [numberLines, List.map_cons]
    rw [stripTag_lineTag, ih]

/-- Numbering preserves nonemptiness. -/
theorem numberLines_ne_nil (k : Nat) (ls : List (List Char)) (h : ls ≠ []) :
    numberLines k ls ≠ [] := by
  cases ls with
  | nil => exact absurd rfl h
  | cons l ls2 => simp [numberLines]

/-- Numbered newline-free lines stay newline-free. -/
theorem mem_numberLines_no_nl : ∀ (ls : List (List Char)) (k : Nat),
    (∀ x ∈ ls, '\n' ∉ x) → ∀ l ∈ numberLines k ls, '\n' ∉ l := by
  intro ls
  induction ls with
  | nil =>
    intro k _ l hl
    simp [numberLines] at hl
  | cons x ls2 ih =>
    intro k h l hl
    simp only [numberLines] at hl
    rw [List.mem_cons] at hl
    cases hl with
    | inl h0 =>
      subst h0
      intro hmem
      rw [List.mem_append] at hmem
      cases hmem with
      | inl h1 => exact lineTag_no_nl k h1
      | inr h1 => exact h x (List.mem_cons_self x ls2) h1
    | inr h0 => exact ih (k + 1) (fun y hy => h y (List.mem_cons_of_mem x hy)) l h0

/-- The lines of a newline-terminated byte sequence are its split lines
without the trailing empty segment. -/
theorem fileLines_terminated (x : List Char) : fileLines (x ++ ['\n']) = splitNl x := by
  unfold fileLines
  rw [if_neg (by simp), if_pos (by rw [List.getLast?_concat]), splitNl_append_nl,
    List.dropLast_concat]

/-- Claim C5 (amended): for every path and every content string none of
whose lines equals the here-document delimiter REMOTERELAY_EOF,
performing the write operation and then the read operation returns the
written content unchanged modulo the added line-number prefixes (the
trailing newline the here-document appends terminates the final line
and is absorbed by the line-based comparison). -/
theorem write_read_round_trip (content : String)
    (h : ∀ l ∈ splitNl content.data, l ≠ heredocDelim.data) :
    readModuloNumbers (remote_read_stdout (remote_write_storedFile content)) = content := by
  have hbody : heredocBodyLines content.data = splitNl content.data := by
    unfold heredocBodyLines
    apply takeWhile_of_all
    intro x hx
    simpa using h x hx
  have hfile : heredocFileBytes content.data = content.data ++ ['\n'] := by
    unfold heredocFileBytes
    rw [hbody, terminateLines_eq _ (splitNl_ne_nil _), joinNl_splitNl]
  have hcat : catN (heredocFileBytes content.data) =
      terminateLines (numberLines 1 (splitNl content.data)) := by
    rw [hfile]
    unfold catN
    rw [if_pos (by rw [List.getLast?_concat]), fileLines_terminated]
  have hns_ne : numberLines 1 (splitNl content.data) ≠ [] :=
    numberLines_ne_nil 1 _ (splitNl_ne_nil _)
  have hterm : terminateLines (numberLines 1 (splitNl content.data)) =
      joinNl (numberLines 1 (splitNl content.data)) ++ ['\n'] :=
    terminateLines_eq _ hns_ne
  apply String.ext
  show joinNl ((fileLines (catN (heredocFileBytes content.data))).map stripTag) = content.data
  rw [hcat, hterm, fileLines_terminated]
  rw [splitNl_joinNl _ hns_ne
    (mem_numberLines_no_nl _ 1 (fun x hx => mem_splitNl_no_nl content.data x hx))]
  rw [map_stripTag_numberLines, joinNl_splitNl]

/-- Witness for C5 (amended): a two-line content round-trips. -/
theorem write_read_round_trip_witness :
    readModuloNumbers (remote_read_stdout (remote_write_storedFile ("line1\nline2"))) =
      "line1\nline2" :=
  write_read_round_trip ("line1\nline2") (by decide)

/-- Claim C5, counterexample to the literal statement: content equal to
the here-document delimiter line terminates the here-document
immediately, so the file is written empty and the read-back does not
return the content. -/
theorem write_read_delim_cex :
    readModuloNumbers (remote_read_stdout (remote_write_storedFile ("REMOTERELAY_EOF"))) ≠
      "REMOTERELAY_EOF" := by
  decide
